import Mathlib

/-!
Verification of the melody-visualizer-canvas core: the note-synthesis
engine (AudioEngine) and the spectrum-to-visual pipeline (Visualizer).
The TypeScript sources are shallowly embedded: JavaScript numbers are
modelled as rationals, JS `Map` objects as association lists with
overwrite-on-set semantics, JS `Set` objects as duplicate-free lists,
and the analysis `Uint8Array` as a list of naturals. Timer callbacks
(`setTimeout`) are modelled as explicitly fired discrete events.
-/

namespace MelodyViz

/-! ## Note table (AudioEngine, `NOTES`, part_000 lines 8-18) -/

/-- The fixed 9-entry note table mapping key symbols to frequencies in Hz.
Source: `const NOTES = { 'a': 261.63, ..., 'l': 587.33 }`. -/
def NOTES : List (String × ℚ) :=
  [("a", 26163/100), ("s", 29366/100), ("d", 32963/100),
   ("f", 34923/100), ("g", 392), ("h", 440),
   ("j", 49388/100), ("k", 52325/100), ("l", 58733/100)]

/-- `NOTES[key]` lookup; `none` models the JS `undefined` miss
(all stored frequencies are nonzero, so JS truthiness of a hit agrees
with `isSome`). -/
def lookupNote (key : String) : Option ℚ :=
  NOTES.lookup key

/-! ## JS `Map` as an association list -/

/-- JS `Map.prototype.set`: overwrite the entry if the key is present,
otherwise append a fresh entry. -/
def mapSet {β : Type} (m : List (String × β)) (k : String) (v : β) :
    List (String × β) :=
  if m.any (fun p => p.1 = k) then
    m.map (fun p => if p.1 = k then (k, v) else p)
  else
    m ++ [(k, v)]

/-- JS `Map.prototype.get` (as an `Option`): first entry stored under `k`. -/
def mapGet {β : Type} : List (String × β) → String → Option β
  | [], _ => none
  | p :: rest, k => if p.1 = k then some p.2 else mapGet rest k

/-- JS `Map.prototype.delete`. -/
def mapDelete {β : Type} (m : List (String × β)) (k : String) :
    List (String × β) :=
  m.filter (fun p => p.1 ≠ k)

/-- Number of entries stored under key `k`. -/
def countKey {β : Type} (m : List (String × β)) (k : String) : Nat :=
  (m.filter (fun p => p.1 = k)).length

/-! ## Gain envelopes -/

/-- A Web Audio `AudioParam` automation command on a gain node:
`setValueAtTime v now` or `linearRampToValueAtTime target (now + dt)`
(`dt` in seconds, relative to the scheduling instant). -/
inductive GainCmd : Type
  | setValue (v : ℚ)
  | linearRampTo (target : ℚ) (dt : ℚ)
deriving DecidableEq, Repr

/-- A `GainNode`: an identity plus the sequence of automation commands
issued against its `gain` param, in order. -/
structure GainNode : Type where
  id : Nat
  commands : List GainCmd
deriving DecidableEq, Repr

/-! ## AudioEngine state (part_000, first variant, lines 20-213)

`oscillators`/`gains` embed `oscillatorsRef`/`gainsRef` (JS Maps),
`activeKeys` embeds the `activeKeys` React `Set` state, `dataArray`
embeds `dataArrayRef` (the `Uint8Array` analysis buffer). `stopped`
records ids of oscillators on which `.stop()` was called, `pending`
records `setTimeout` release callbacks scheduled by `handleKeyUp`
as (key, delay in ms); firing one is the explicit `fireRelease` event.
`nextId` is a fresh-name supply for created audio nodes. -/
structure EngineState : Type where
  oscillators : List (String × Nat)
  gains : List (String × GainNode)
  activeKeys : List String
  dataArray : List Nat
  stopped : List Nat
  pending : List (String × Nat)
  nextId : Nat
deriving DecidableEq, Repr

/-- The engine state right after `initAudio`: empty registries and a
128-slot analysis buffer (fftSize 256, so `frequencyBinCount` = 128);
the buffer's random seed values are abstracted as a parameter. -/
def initState (seed : List Nat) : EngineState :=
  { oscillators := [], gains := [], activeKeys := [],
    dataArray := seed, stopped := [], pending := [], nextId := 0 }

/-! ## The visualization boost (part_000 lines 134-142) -/

/-- JS `a % b` for nonnegative `a` and positive `b` (on nonnegative
operands JS's truncated remainder coincides with the floor-based one). -/
def jsMod (a b : ℚ) : ℚ := a - b * ⌊a / b⌋

/-- `Math.floor(NOTES[key] % dataArray.length)` as a natural index. -/
def noteIndex (freq : ℚ) (len : Nat) : Nat :=
  (⌊jsMod freq len⌋).toNat

/-- The boost loop: `for (i = 0; i < 10; i++) data[(index+i) % len] = 230`.
`List.set` out of range is a no-op, matching the loop never going out of
range (indices are reduced `% len`). -/
def boostData (data : List Nat) (freq : ℚ) : List Nat :=
  let len := data.length
  let index := noteIndex freq len
  (List.range 10).foldl (fun d i => d.set ((index + i) % len) 230) data

/-! ## Key handlers (part_000 lines 100-181, first variant) -/

/-- `handleKeyDown` body after `e.key.toLowerCase()`: the logical
note-on. Skips held or unmapped keys; otherwise creates an oscillator
and a gain node, schedules the 0 → 0.8 attack ramp over 0.1 s, registers
both under `key`, marks the key active, and boosts the analysis buffer. -/
def noteOn (s : EngineState) (key : String) : EngineState :=
  if s.activeKeys.contains key || (lookupNote key).isNone then s
  else
    match lookupNote key with
    | none => s
    | some freq =>
        let oscId := s.nextId
        let gNode : GainNode :=
          { id := s.nextId + 1,
            commands := [GainCmd.setValue 0, GainCmd.linearRampTo (8/10) (1/10)] }
        { oscillators := mapSet s.oscillators key oscId,
          gains := mapSet s.gains key gNode,
          activeKeys := key :: s.activeKeys,
          dataArray := boostData s.dataArray freq,
          stopped := s.stopped,
          pending := s.pending,
          nextId := s.nextId + 2 }

/-- `handleKeyUp` body after `e.key.toLowerCase()`: the logical
note-off. On a registered voice, issues `linearRampToValueAtTime(0,
now + 0.1)` on its gain node and schedules the cleanup callback with
`setTimeout(..., 100)`. -/
def noteOff (s : EngineState) (key : String) : EngineState :=
  if (lookupNote key).isNone then s
  else if (mapGet s.oscillators key).isSome then
    match mapGet s.gains key with
    | some g =>
        { s with
          gains := mapSet s.gains key
            { g with commands := g.commands ++ [GainCmd.linearRampTo 0 (1/10)] },
          pending := s.pending ++ [(key, 100)] }
    | none => s
  else s

/-- The `setTimeout` cleanup callback scheduled by `handleKeyUp`:
`oscillators.get(key)?.stop(); oscillators.delete(key);
gains.delete(key); activeKeys.delete(key)`. -/
def fireRelease (s : EngineState) (key : String) : EngineState :=
  { s with
    stopped :=
      match mapGet s.oscillators key with
      | some oid => s.stopped ++ [oid]
      | none => s.stopped,
    oscillators := mapDelete s.oscillators key,
    gains := mapDelete s.gains key,
    activeKeys := s.activeKeys.erase key }

/-- `handleKeyDown` on a raw keyboard event: lowercase, then note-on. -/
def handleKeyDown (s : EngineState) (rawKey : String) : EngineState :=
  noteOn s rawKey.toLower

/-- `handleKeyUp` on a raw keyboard event: lowercase, then note-off. -/
def handleKeyUp (s : EngineState) (rawKey : String) : EngineState :=
  noteOff s rawKey.toLower

/-! ## Association-list lemmas -/

theorem mapGet_eq_none_iff_not_any {β : Type} (m : List (String × β)) (k : String) :
    mapGet m k = none ↔ m.any (fun p => p.1 = k) = false := by
  induction m with
  | nil => simp [mapGet]
  | cons p rest ih =>
      by_cases h : p.1 = k <;> simp [mapGet, h, ih, beq_iff_eq]

theorem mapSet_of_get_none {β : Type} {m : List (String × β)} {k : String} (v : β)
    (h : mapGet m k = none) : mapSet m k v = m ++ [(k, v)] := by
  rw [mapGet_eq_none_iff_not_any] at h
  simp [mapSet, h]

theorem mapGet_overwrite {β : Type} (m : List (String × β)) (k : String) (v : β)
    (h : m.any (fun p => p.1 = k) = true) :
    mapGet (m.map (fun p => if p.1 = k then (k, v) else p)) k = some v := by
  induction m with
  | nil => simp at h
  | cons p rest ih =>
      by_cases hp : p.1 = k
      · simp [hp, mapGet]
      · simp [hp, mapGet, beq_iff_eq] at h ⊢
        exact ih (by simpa using h)

theorem mapGet_append_of_none {β : Type} {m : List (String × β)} (m' : List (String × β))
    {k : String} (h : mapGet m k = none) :
    mapGet (m ++ m') k = mapGet m' k := by
  induction m with
  | nil => simp
  | cons p rest ih =>
      by_cases hp : p.1 = k
      · simp [mapGet, hp, beq_iff_eq] at h
      · simp [mapGet, hp, beq_iff_eq] at h ⊢
        exact ih h

theorem mapGet_mapSet_self {β : Type} (m : List (String × β)) (k : String) (v : β) :
    mapGet (mapSet m k v) k = some v := by
  by_cases h : m.any (fun p => p.1 = k) = true
  · unfold mapSet
    rw [if_pos h]
    exact mapGet_overwrite m k v h
  · have hnone : mapGet m k = none := by
      rw [mapGet_eq_none_iff_not_any]
      exact Bool.not_eq_true _ ▸ h
    rw [mapSet_of_get_none v hnone, mapGet_append_of_none _ hnone]
    simp [mapGet]

theorem countKey_eq_zero_of_get_none {β : Type} {m : List (String × β)} {k : String}
    (h : mapGet m k = none) : countKey m k = 0 := by
  induction m with
  | nil => simp [countKey]
  | cons p rest ih =>
      by_cases hp : p.1 = k
      · simp [mapGet, hp, beq_iff_eq] at h
      · simp [mapGet, hp, beq_iff_eq] at h
        simp [countKey, List.filter, hp] at ih ⊢
        exact ih h

theorem countKey_mapSet_of_get_none {β : Type} {m : List (String × β)} {k : String} (v : β)
    (h : mapGet m k = none) : countKey (mapSet m k v) k = 1 := by
  rw [mapSet_of_get_none v h]
  have h0 : countKey m k = 0 := countKey_eq_zero_of_get_none h
  unfold countKey at h0 ⊢
  rw [List.filter_append, List.length_append, h0]
  simp

theorem mapGet_mapDelete_self {β : Type} (m : List (String × β)) (k : String) :
    mapGet (mapDelete m k) k = none := by
  induction m with
  | nil => rfl
  | cons p rest ih =>
      by_cases hp : p.1 = k
      · simpa [mapDelete, List.filter, hp] using ih
      · simpa [mapDelete, List.filter, hp, mapGet, beq_iff_eq] using ih

/-- Expansion of a successful `noteOn` on a key with no active voice. -/
theorem noteOn_eq_of_fresh (s : EngineState) (k : String) (f : ℚ)
    (hf : lookupNote k = some f) (ha : k ∉ s.activeKeys) :
    noteOn s k =
      { oscillators := mapSet s.oscillators k s.nextId,
        gains := mapSet s.gains k
          { id := s.nextId + 1,
            commands := [GainCmd.setValue 0, GainCmd.linearRampTo (8/10) (1/10)] },
        activeKeys := k :: s.activeKeys,
        dataArray := boostData s.dataArray f,
        stopped := s.stopped,
        pending := s.pending,
        nextId := s.nextId + 2 } := by
  simp only [noteOn, hf]
  simp [ha]

/-! ## C1: double note-on keeps exactly one voice -/

/-- C1: for every recognized key `k` with no voice yet registered,
`noteOn k` followed immediately by a second `noteOn k` is a no-op on the
second call: exactly one oscillator entry, one gain entry and one
active-key entry exist for `k` afterwards. -/
theorem noteOn_noteOn_single_voice (s : EngineState) (k : String)
    (hk : (lookupNote k).isSome) (ha : k ∉ s.activeKeys)
    (ho : mapGet s.oscillators k = none) (hg : mapGet s.gains k = none) :
    noteOn (noteOn s k) k = noteOn s k ∧
    countKey (noteOn s k).oscillators k = 1 ∧
    countKey (noteOn s k).gains k = 1 ∧
    (noteOn s k).activeKeys.count k = 1 := by
  rcases Option.isSome_iff_exists.mp hk with ⟨f, hf⟩
  have h1 := noteOn_eq_of_fresh s k f hf ha
  refine ⟨?_, ?_, ?_, ?_⟩
  · rw [h1]
    simp [noteOn]
  · rw [h1]
    exact countKey_mapSet_of_get_none _ ho
  · rw [h1]
    exact countKey_mapSet_of_get_none _ hg
  · rw [h1]
    simp [List.count_cons_self, List.count_eq_zero_of_not_mem ha]

/-- Witness for C1 at the empty engine state and key `a`. -/
theorem noteOn_noteOn_single_voice_witness :
    noteOn (noteOn (initState []) "a") "a" = noteOn (initState []) "a" ∧
    countKey (noteOn (initState []) "a").oscillators "a" = 1 ∧
    countKey (noteOn (initState []) "a").gains "a" = 1 :=
  ⟨(noteOn_noteOn_single_voice (initState []) "a" (by decide) (by simp [initState]) rfl rfl).1,
   (noteOn_noteOn_single_voice (initState []) "a" (by decide) (by simp [initState]) rfl rfl).2.1,
   (noteOn_noteOn_single_voice (initState []) "a" (by decide) (by simp [initState]) rfl rfl).2.2.1⟩

/-! ## C9: unmapped keys are silent no-ops -/

/-- C9: a note-on event for a (lowercased) key that is not in the
9-entry note table leaves the entire engine state unchanged: no
oscillator, no gain node, no active-key entry, no buffer boost. -/
theorem noteOn_unmapped_noop (s : EngineState) (key : String)
    (hk : lookupNote key = none) : noteOn s key = s := by
  simp [noteOn, hk]

/-- Witness for C9 at key `z`, which is not in the note table. -/
theorem noteOn_unmapped_noop_witness :
    lookupNote "z" = none ∧ noteOn (initState []) "z" = initState [] :=
  ⟨by decide, noteOn_unmapped_noop (initState []) "z" (by decide)⟩

/-! ## C2: note-off ramps down and deregisters after the release -/

/-- C2: for a recognized key `k` pressed from a fresh state, `noteOff k`
appends a linear ramp to amplitude 0 over the 0.1 s release time to the
voice's gain envelope and schedules the cleanup callback 100 ms out;
once that callback fires, the voice's oscillator has been stopped and
`k` is absent from the oscillator map, the gain map and the active-key
set. -/
theorem noteOff_release_removes_voice (s : EngineState) (k : String)
    (hk : (lookupNote k).isSome) (ha : k ∉ s.activeKeys) :
    (∃ g, mapGet (noteOff (noteOn s k) k).gains k = some g ∧
        g.commands.getLast? = some (GainCmd.linearRampTo 0 (1/10))) ∧
    (k, 100) ∈ (noteOff (noteOn s k) k).pending ∧
    mapGet (fireRelease (noteOff (noteOn s k) k) k).oscillators k = none ∧
    mapGet (fireRelease (noteOff (noteOn s k) k) k).gains k = none ∧
    k ∉ (fireRelease (noteOff (noteOn s k) k) k).activeKeys ∧
    s.nextId ∈ (fireRelease (noteOff (noteOn s k) k) k).stopped := by
  rcases Option.isSome_iff_exists.mp hk with ⟨f, hf⟩
  have h1 := noteOn_eq_of_fresh s k f hf ha
  have hosc1 : mapGet (noteOn s k).oscillators k = some s.nextId := by
    rw [h1]
    exact mapGet_mapSet_self _ _ _
  have hgn1 : mapGet (noteOn s k).gains k =
      some { id := s.nextId + 1,
             commands := [GainCmd.setValue 0, GainCmd.linearRampTo (8/10) (1/10)] } := by
    rw [h1]
    exact mapGet_mapSet_self _ _ _
  have h2 : noteOff (noteOn s k) k =
      { noteOn s k with
        gains := mapSet (noteOn s k).gains k
          { id := s.nextId + 1,
            commands := [GainCmd.setValue 0, GainCmd.linearRampTo (8/10) (1/10),
                         GainCmd.linearRampTo 0 (1/10)] },
        pending := (noteOn s k).pending ++ [(k, 100)] } := by
    simp only [noteOff, hf, hosc1, hgn1]
    simp
  refine ⟨?_, ?_, ?_, ?_, ?_, ?_⟩
  · refine ⟨{ id := s.nextId + 1,
              commands := [GainCmd.setValue 0, GainCmd.linearRampTo (8/10) (1/10),
                           GainCmd.linearRampTo 0 (1/10)] }, ?_, ?_⟩
    · rw [h2]
      exact mapGet_mapSet_self _ _ _
    · simp
  · rw [h2]
    simp
  · exact mapGet_mapDelete_self _ _
  · exact mapGet_mapDelete_self _ _
  · have hak : (noteOff (noteOn s k) k).activeKeys = k :: s.activeKeys := by
      rw [h2, h1]
    simp only [fireRelease, hak, List.erase_cons_head]
    exact ha
  · have hosc2 : mapGet (noteOff (noteOn s k) k).oscillators k = some s.nextId := by
      rw [h2]
      exact hosc1
    simp [fireRelease, hosc2]

/-- Witness for C2 at the empty engine state and key `a`. -/
theorem noteOff_release_removes_voice_witness :
    ("a", 100) ∈ (noteOff (noteOn (initState []) "a") "a").pending ∧
    mapGet (fireRelease (noteOff (noteOn (initState []) "a") "a") "a").oscillators "a"
      = none ∧
    "a" ∉ (fireRelease (noteOff (noteOn (initState []) "a") "a") "a").activeKeys :=
  ⟨(noteOff_release_removes_voice (initState []) "a"
      (by decide) (by simp [initState])).2.1,
   (noteOff_release_removes_voice (initState []) "a"
      (by decide) (by simp [initState])).2.2.1,
   (noteOff_release_removes_voice (initState []) "a"
      (by decide) (by simp [initState])).2.2.2.2.1⟩

/-! ## C10: the visualization boost writes 10 buffer slots -/

theorem length_foldl_set (is : List Nat) (d : List Nat) (g : Nat → Nat) :
    (is.foldl (fun a i => a.set (g i) 230) d).length = d.length := by
  induction is generalizing d with
  | nil => rfl
  | cons i rest ih => simp [ih, List.length_set]

theorem getElem_foldl_set (g : Nat → Nat) (is : List Nat) (d : List Nat) (j : Nat)
    (hj : j < d.length) :
    (is.foldl (fun a i => a.set (g i) 230) d)[j]? =
      if ∃ i ∈ is, g i = j then some 230 else d[j]? := by
  induction is generalizing d with
  | nil => simp
  | cons i rest ih =>
      rw [List.foldl_cons, ih _ (by simpa using hj)]
      by_cases hrest : ∃ i' ∈ rest, g i' = j
      · have hcons : ∃ i' ∈ i :: rest, g i' = j := by
          rcases hrest with ⟨i', hi', hgi⟩
          exact ⟨i', List.mem_cons_of_mem _ hi', hgi⟩
        rw [if_pos hrest, if_pos hcons]
      · rw [if_neg hrest]
        by_cases hgi : g i = j
        · have hcons : ∃ i' ∈ i :: rest, g i' = j :=
            ⟨i, List.mem_cons_self _ _, hgi⟩
          rw [if_pos hcons, hgi, List.getElem?_set_eq_of_lt _ hj]
        · have hcons : ¬ ∃ i' ∈ i :: rest, g i' = j := by
            rintro ⟨i', hi', hgi'⟩
            rcases List.mem_cons.mp hi' with rfl | hmem
            · exact hgi hgi'
            · exact hrest ⟨i', hmem, hgi'⟩
          rw [if_neg hcons, List.getElem?_set_ne]
          exact hgi

theorem jsMod_nonneg (a : ℚ) {b : ℚ} (hb : 0 < b) : 0 ≤ jsMod a b := by
  unfold jsMod
  have h1 : ((⌊a / b⌋ : ℚ)) ≤ a / b := Int.floor_le _
  have h2 : b * ((⌊a / b⌋ : ℚ)) ≤ b * (a / b) := mul_le_mul_of_nonneg_left h1 hb.le
  have h3 : b * (a / b) = a := by field_simp
  linarith

theorem jsMod_lt (a : ℚ) {b : ℚ} (hb : 0 < b) : jsMod a b < b := by
  unfold jsMod
  have h1 : a / b < ((⌊a / b⌋ : ℚ)) + 1 := Int.lt_floor_add_one _
  have h2 : b * (a / b) < b * (((⌊a / b⌋ : ℚ)) + 1) := by
    exact mul_lt_mul_of_pos_left h1 hb
  have h3 : b * (a / b) = a := by field_simp
  nlinarith

theorem noteIndex_lt (f : ℚ) {len : Nat} (hlen : 0 < len) : noteIndex f len < len := by
  unfold noteIndex
  have hb : (0:ℚ) < (len:ℚ) := by exact_mod_cast hlen
  have h1 : 0 ≤ jsMod f len := jsMod_nonneg f hb
  have h2 : jsMod f len < len := jsMod_lt f hb
  have h3 : 0 ≤ ⌊jsMod f len⌋ := Int.floor_nonneg.mpr h1
  have h4 : ⌊jsMod f len⌋ < (len:ℤ) := by
    rw [Int.floor_lt]
    push_cast
    exact h2
  omega

/-- C10: a successful `noteOn k` overwrites exactly the 10 analysis
buffer slots at indices `(noteIndex (NOTES k) 128 + i) % 128`,
`i = 0..9`, with the value 230, and leaves every other slot unchanged:
the input path itself writes the buffer. -/
theorem noteOn_boost_buffer (s : EngineState) (k : String) (f : ℚ)
    (hf : lookupNote k = some f) (ha : k ∉ s.activeKeys)
    (hlen : s.dataArray.length = 128) :
    (noteOn s k).dataArray.length = 128 ∧
    ((List.range 10).map (fun i => (noteIndex f 128 + i) % 128)).length = 10 ∧
    ((List.range 10).map (fun i => (noteIndex f 128 + i) % 128)).Nodup ∧
    ∀ j, j < 128 →
      ((∃ i, i < 10 ∧ (noteIndex f 128 + i) % 128 = j) →
        (noteOn s k).dataArray[j]? = some 230) ∧
      ((¬ ∃ i, i < 10 ∧ (noteIndex f 128 + i) % 128 = j) →
        (noteOn s k).dataArray[j]? = s.dataArray[j]?) := by
  have h1 := noteOn_eq_of_fresh s k f hf ha
  have hdat : (noteOn s k).dataArray =
      (List.range 10).foldl
        (fun d i => d.set ((noteIndex f 128 + i) % 128) 230) s.dataArray := by
    rw [h1]
    simp only [boostData, hlen]
  refine ⟨?_, ?_, ?_, ?_⟩
  · rw [hdat, length_foldl_set, hlen]
  · simp
  · refine List.Nodup.map_on ?_ (List.nodup_range 10)
    intro x hx y hy hxy
    simp only [List.mem_range] at hx hy
    omega
  · intro j hj
    have hget := getElem_foldl_set (fun i => (noteIndex f 128 + i) % 128)
      (List.range 10) s.dataArray j (by omega)
    rw [← hdat] at hget
    constructor
    · intro hex
      rw [hget, if_pos]
      rcases hex with ⟨i, hi, hgi⟩
      exact ⟨i, List.mem_range.mpr hi, hgi⟩
    · intro hnex
      rw [hget, if_neg]
      rintro ⟨i, hi, hgi⟩
      exact hnex ⟨i, List.mem_range.mp hi, hgi⟩

/-- The boost start index for the `a` key: ⌊261.63 % 128⌋ = 5. -/
theorem noteIndex_a : noteIndex (26163/100) 128 = 5 := by
  unfold noteIndex jsMod
  simp only [Nat.cast_ofNat]
  have h1 : ⌊(26163/100 : ℚ) / 128⌋ = 2 := by
    rw [Int.floor_eq_iff]
    norm_num
  rw [h1]
  have h2 : (26163/100 - 128 * ((2:ℤ):ℚ)) = 563/100 := by norm_num
  rw [h2]
  have h3 : ⌊(563/100 : ℚ)⌋ = 5 := by
    rw [Int.floor_eq_iff]
    norm_num
  rw [h3]
  rfl

/-- Witness for C10: pressing `a` (261.63 Hz) writes 230 into slot
5 = ⌊261.63 % 128⌋ of a 128-slot zero buffer and leaves slot 20
unchanged. -/
theorem noteOn_boost_buffer_witness :
    (noteOn (initState (List.replicate 128 0)) "a").dataArray.length = 128 ∧
    (noteOn (initState (List.replicate 128 0)) "a").dataArray[5]? = some 230 ∧
    (noteOn (initState (List.replicate 128 0)) "a").dataArray[20]? =
      (List.replicate 128 (0:Nat))[20]? :=
  ⟨(noteOn_boost_buffer (initState (List.replicate 128 0)) "a" (26163/100)
      rfl (by simp [initState]) (by simp [initState])).1,
   ((noteOn_boost_buffer (initState (List.replicate 128 0)) "a" (26163/100)
      rfl (by simp [initState]) (by simp [initState])).2.2.2 5
      (by decide)).1 ⟨0, by norm_num, by rw [noteIndex_a]⟩,
   ((noteOn_boost_buffer (initState (List.replicate 128 0)) "a" (26163/100)
      rfl (by simp [initState]) (by simp [initState])).2.2.2 20
      (by decide)).2 (by
        simp only [noteIndex_a]
        rintro ⟨i, hi, hmod⟩
        omega)⟩

/-! ## Visualizer: the particle field (Visualizer.tsx) -/

/-- A particle of the `particles` visual style: position, drawing size,
velocity components and color (Visualizer.tsx lines 31-38 / 369-376). -/
structure Particle : Type where
  x : ℚ
  y : ℚ
  size : ℚ
  speedX : ℚ
  speedY : ℚ
  color : String
deriving DecidableEq, Repr

/-- One `drawParticles` update of a single particle (second variant,
lines 560-569): displace by speed scaled by `1 + intensity * 3`, then
wrap each coordinate with `if (p > bound) p = 0; if (p < 0) p = bound;`.
The first variant (lines 250-259) scales by `1 + intensity * 5` with the
identical wrap logic. -/
def stepParticle (width height intensity : ℚ) (p : Particle) : Particle :=
  let x0 := p.x + p.speedX * (1 + intensity * 3)
  let y0 := p.y + p.speedY * (1 + intensity * 3)
  let x1 := if x0 > width then 0 else x0
  let x2 := if x1 < 0 then width else x1
  let y1 := if y0 > height then 0 else y0
  let y2 := if y1 < 0 then height else y1
  { p with x := x2, y := y2 }

/-- One `drawParticles` pass over the whole field: every stored particle
is updated in place; none is created or destroyed. -/
def stepField (width height intensity : ℚ) (ps : List Particle) : List Particle :=
  ps.map (stepParticle width height intensity)

/-- Particle regeneration (the `particles` effect, lines 29-40 /
367-378): `Array.from({ length: 100 }, () => ({ ... }))`; the random
draws are abstracted as a generator indexed by position. -/
def regenerateParticles (mk : Nat → Particle) : List Particle :=
  (List.range 100).map mk

/-! ## C7: stepping preserves the particle population -/

theorem length_foldl_stepField (w h : ℚ) (ints : List ℚ) (ps : List Particle) :
    (ints.foldl (fun qs i => stepField w h i qs) ps).length = ps.length := by
  induction ints generalizing ps with
  | nil => rfl
  | cons i rest ih =>
      rw [List.foldl_cons, ih]
      simp [stepField]

/-- C7: stepping the particle field any number of times, under any
intensity inputs, never creates or destroys a particle: the population
stays at the regeneration count of 100. -/
theorem particle_count_invariant (mk : Nat → Particle) (w h : ℚ) (ints : List ℚ) :
    (ints.foldl (fun qs i => stepField w h i qs) (regenerateParticles mk)).length =
      (regenerateParticles mk).length ∧
    (regenerateParticles mk).length = 100 := by
  constructor
  · exact length_foldl_stepField w h ints (regenerateParticles mk)
  · simp [regenerateParticles]

/-! ## C3: wrap-around bounds (corrected to the closed box) -/

/-- A particle moving left from `x = 5` with speed `-10`, used to refute
the half-open-interval claim. -/
def cexParticle : Particle :=
  { x := 5, y := 5, size := 3, speedX := -10, speedY := 0, color := "" }

/-- C3 counterexample: in an 800×600 viewport with intensity 0, one step
of `cexParticle` drives `x` to `-5 < 0`, and the wrap sets `x` to the
width itself: the resulting position has `x = 800`, which is not in
`[0, 800)`. -/
theorem particle_wrap_escapes_halfopen_box :
    (stepParticle 800 600 0 cexParticle).x = 800 ∧
    ¬ (stepParticle 800 600 0 cexParticle).x < 800 := by
  constructor
  · norm_num [stepParticle, cexParticle]
  · norm_num [stepParticle, cexParticle]

theorem stepParticle_in_closed_box (w h : ℚ) (hw : 0 ≤ w) (hh : 0 ≤ h)
    (intensity : ℚ) (p : Particle) :
    0 ≤ (stepParticle w h intensity p).x ∧ (stepParticle w h intensity p).x ≤ w ∧
    0 ≤ (stepParticle w h intensity p).y ∧ (stepParticle w h intensity p).y ≤ h := by
  unfold stepParticle
  dsimp only
  split_ifs <;>
    refine ⟨by linarith, by linarith, by linarith, by linarith⟩

theorem foldl_stepParticle_in_closed_box (w h : ℚ) (hw : 0 ≤ w) (hh : 0 ≤ h)
    (i : ℚ) (ints : List ℚ) (p : Particle) :
    0 ≤ ((i :: ints).foldl (fun q j => stepParticle w h j q) p).x ∧
    ((i :: ints).foldl (fun q j => stepParticle w h j q) p).x ≤ w ∧
    0 ≤ ((i :: ints).foldl (fun q j => stepParticle w h j q) p).y ∧
    ((i :: ints).foldl (fun q j => stepParticle w h j q) p).y ≤ h := by
  induction ints generalizing i p with
  | nil => simpa using stepParticle_in_closed_box w h hw hh i p
  | cons j rest ih =>
      rw [List.foldl_cons]
      exact ih j (stepParticle w h i p)

/-- C3 amended: after the wrap-around of a step, a particle's position
lies in the closed box `[0, width] × [0, height]` (landing exactly on
`width` or `height` is possible, so the half-open box of the original
claim is too strong), for every starting particle, every velocity,
every intensity sequence and any positive number of steps. -/
theorem particle_steps_in_closed_box (w h : ℚ) (hw : 0 ≤ w) (hh : 0 ≤ h)
    (p : Particle) (ints : List ℚ) (hne : ints ≠ []) :
    0 ≤ (ints.foldl (fun q i => stepParticle w h i q) p).x ∧
    (ints.foldl (fun q i => stepParticle w h i q) p).x ≤ w ∧
    0 ≤ (ints.foldl (fun q i => stepParticle w h i q) p).y ∧
    (ints.foldl (fun q i => stepParticle w h i q) p).y ≤ h := by
  cases ints with
  | nil => cases hne rfl
  | cons i rest => exact foldl_stepParticle_in_closed_box w h hw hh i rest p

/-- Witness for the amended C3: one zero-intensity step of `cexParticle`
in an 800×600 viewport stays in the closed box. -/
theorem particle_steps_in_closed_box_witness :
    0 ≤ (([0] : List ℚ).foldl (fun q i => stepParticle 800 600 i q) cexParticle).x ∧
    (([0] : List ℚ).foldl (fun q i => stepParticle 800 600 i q) cexParticle).x ≤ 800 ∧
    0 ≤ (([0] : List ℚ).foldl (fun q i => stepParticle 800 600 i q) cexParticle).y ∧
    (([0] : List ℚ).foldl (fun q i => stepParticle 800 600 i q) cexParticle).y ≤ 600 :=
  particle_steps_in_closed_box 800 600 (by norm_num) (by norm_num) cexParticle [0]
    (by simp)

/-! ## Visualizer: spectrum amplification and bar geometry -/

/-- The amplification transform `Math.min(255, v * 1.5)` used by the
second Visualizer variant's `drawBars`/`drawCircular`/`drawWave`
(lines 449, 486, 521) and by `updateAnalyser` (part_000 line 81).
The first Visualizer variant uses gain 2.5 in the same shape. -/
def amplifiedValue (v : ℚ) : ℚ := min 255 (v * (3/2))

/-- `drawBars` bar height (lines 449-450):
`(amplifiedValue / 255) * height * 0.8`. -/
def barHeight (height v : ℚ) : ℚ := amplifiedValue v / 255 * height * (8/10)

/-! ## C4: amplification is bounded and monotone -/

/-- C4: for every raw magnitude `m ∈ [0, 255]`, the amplified value
`min(255, m * 1.5)` is again in `[0, 255]`, and the transform is
non-decreasing. -/
theorem amplified_bounded_monotone (m m1 m2 : ℚ)
    (h0 : 0 ≤ m) (h255 : m ≤ 255) (h12 : m1 ≤ m2) :
    (0 ≤ amplifiedValue m ∧ amplifiedValue m ≤ 255) ∧
    amplifiedValue m1 ≤ amplifiedValue m2 := by
  refine ⟨⟨le_min (by norm_num) (by nlinarith), min_le_left _ _⟩, ?_⟩
  exact min_le_min le_rfl (by nlinarith)

/-- Witness for C4 at `m = 100`, `m1 = 3`, `m2 = 7`. -/
theorem amplified_bounded_monotone_witness :
    (0 ≤ amplifiedValue 100 ∧ amplifiedValue 100 ≤ 255) ∧
    amplifiedValue 3 ≤ amplifiedValue 7 :=
  amplified_bounded_monotone 100 3 7 (by norm_num) (by norm_num) (by norm_num)

/-! ## C5: an all-200 snapshot saturates every bar -/

/-- C5: feeding a 128-bin snapshot of raw value 200 into `drawBars`
with gain 1.5 clamps every bin's amplified value to 255 (200 · 1.5 =
300 > 255) so every bar reaches the maximum bar height, 80% of the
viewport height — no input value can produce a taller bar. -/
theorem bars_all200_max_height (h : ℚ) (hh : 0 ≤ h) :
    ((List.replicate 128 (200:ℚ)).map amplifiedValue =
        List.replicate 128 255) ∧
    ((List.replicate 128 (200:ℚ)).map (barHeight h) =
        List.replicate 128 (h * (8/10))) ∧
    (∀ v : ℚ, barHeight h v ≤ h * (8/10)) := by
  have hamp : amplifiedValue 200 = 255 := by
    unfold amplifiedValue
    norm_num
  refine ⟨?_, ?_, ?_⟩
  · rw [List.map_replicate, hamp]
  · rw [List.map_replicate]
    unfold barHeight
    rw [hamp]
    norm_num
  · intro v
    have hA : amplifiedValue v ≤ 255 := min_le_left _ _
    unfold barHeight
    nlinarith [mul_nonneg (by linarith : (0:ℚ) ≤ 255 - amplifiedValue v) hh]

/-- Witness for C5 at viewport height 600. -/
theorem bars_all200_max_height_witness :
    ((List.replicate 128 (200:ℚ)).map (barHeight 600) =
        List.replicate 128 (600 * (8/10))) ∧
    barHeight 600 90 ≤ 600 * (8/10) :=
  ⟨(bars_all200_max_height 600 (by norm_num)).2.1,
   (bars_all200_max_height 600 (by norm_num)).2.2 90⟩

/-! ## Visualizer: particle intensity (C8) -/

/-- `drawParticles` average magnitude:
`data.reduce((sum, value) => sum + value, 0) / data.length`. -/
def averageFrequency (data : List ℚ) : ℚ := data.sum / data.length

/-- The first `drawParticles` variant's intensity (line 245):
`Math.min(1, averageFrequency / 255 * 3)`. -/
def intensityAmped (data : List ℚ) : ℚ := min 1 (averageFrequency data / 255 * 3)

/-- The second `drawParticles` variant's intensity (line 555):
`averageFrequency / 255`. -/
def intensityPlain (data : List ℚ) : ℚ := averageFrequency data / 255

/-- C8: for every nonempty snapshot whose bins lie in `[0, 255]`, the
particle intensity — in both `drawParticles` variants — is a normalized
scalar in `[0, 1]`. -/
theorem intensity_normalized (data : List ℚ) (hne : data ≠ [])
    (hb : ∀ v ∈ data, 0 ≤ v ∧ v ≤ 255) :
    (0 ≤ intensityAmped data ∧ intensityAmped data ≤ 1) ∧
    (0 ≤ intensityPlain data ∧ intensityPlain data ≤ 1) := by
  have hlen0 : data.length ≠ 0 := by simpa using hne
  have hlen : (0:ℚ) < data.length := by
    exact_mod_cast Nat.pos_of_ne_zero hlen0
  have hsum0 : 0 ≤ data.sum := List.sum_nonneg (fun v hv => (hb v hv).1)
  have hsum : data.sum ≤ data.length * 255 := by
    have := List.sum_le_card_nsmul data 255 (fun v hv => (hb v hv).2)
    simpa [nsmul_eq_mul] using this
  have havg0 : 0 ≤ averageFrequency data := div_nonneg hsum0 hlen.le
  have havg : averageFrequency data ≤ 255 := by
    rw [averageFrequency, div_le_iff hlen]
    linarith
  refine ⟨⟨?_, ?_⟩, ?_, ?_⟩
  · refine le_min (by norm_num) ?_
    have : 0 ≤ averageFrequency data / 255 := div_nonneg havg0 (by norm_num)
    linarith
  · exact min_le_left _ _
  · exact div_nonneg havg0 (by norm_num)
  · rw [intensityPlain, div_le_one (by norm_num)]
    exact havg

/-- Witness for C8 at the two-bin snapshot `[0, 255]`. -/
theorem intensity_normalized_witness :
    (0 ≤ intensityAmped [0, 255] ∧ intensityAmped [0, 255] ≤ 1) ∧
    (0 ≤ intensityPlain [0, 255] ∧ intensityPlain [0, 255] ≤ 1) :=
  intensity_normalized [0, 255] (by simp) (by norm_num)

/-! ## Visualizer: mode dispatch and palettes (C6) -/

/-- `colorSchemes.bars` (lines 384-387). -/
def barsColors : List String :=
  ["#9b87f5", "#7E69AB", "#6E59A5", "#D6BCFA", "#D946EF", "#F97316", "#0EA5E9"]

/-- `colorSchemes.circular` (lines 388-391). -/
def circularColors : List String :=
  ["#D946EF", "#9b87f5", "#0EA5E9", "#F97316", "#7E69AB", "#D6BCFA", "#6E59A5"]

/-- `colorSchemes.wave` (lines 392-395). -/
def waveColors : List String :=
  ["#0EA5E9", "#9b87f5", "#D946EF", "#7E69AB", "#F97316", "#D6BCFA", "#6E59A5"]

/-- `colorSchemes.particles` (lines 396-399). -/
def particlesColors : List String :=
  ["#D6BCFA", "#9b87f5", "#D946EF", "#0EA5E9", "#F97316", "#7E69AB", "#6E59A5"]

/-- The `colorSchemes[activeVisualizer]` object access; `none` models the
`undefined` miss for an unknown property name. -/
def colorSchemes (mode : String) : Option (List String) :=
  if mode = "bars" then some barsColors
  else if mode = "circular" then some circularColors
  else if mode = "wave" then some waveColors
  else if mode = "particles" then some particlesColors
  else none

/-- `getColor` (lines 381-407): `colorSchemes[mode] || colorSchemes.bars`,
then `colors[Math.floor((index / total) * colors.length) % colors.length]`. -/
def getColor (mode : String) (index total : Nat) : String :=
  let colors := (colorSchemes mode).getD barsColors
  let colorPosition := (⌊((index : ℚ) / total) * colors.length⌋).toNat
  colors.getD (colorPosition % colors.length) ""

/-- Which draw algorithm a frame runs. -/
inductive VisAlgo : Type
  | bars
  | circular
  | wave
  | particles
deriving DecidableEq, Repr

/-- The `switch (activeVisualizer)` dispatch in `draw` (lines 421-437):
the `default` branch runs `drawBars`. -/
def dispatchAlgo (mode : String) : VisAlgo :=
  if mode = "bars" then VisAlgo.bars
  else if mode = "circular" then VisAlgo.circular
  else if mode = "wave" then VisAlgo.wave
  else if mode = "particles" then VisAlgo.particles
  else VisAlgo.bars

/-- C6: every mode string other than `bars`, `circular`, `wave`,
`particles` dispatches to the Bars algorithm and resolves colors through
the bars palette, exactly as mode `bars` does. -/
theorem invalid_mode_falls_back_to_bars (mode : String)
    (hm : mode ∉ (["bars", "circular", "wave", "particles"] : List String)) :
    dispatchAlgo mode = VisAlgo.bars ∧
    dispatchAlgo mode = dispatchAlgo "bars" ∧
    ∀ index total : Nat, getColor mode index total = getColor "bars" index total := by
  simp only [List.mem_cons, List.not_mem_nil, or_false] at hm
  push_neg at hm
  obtain ⟨h1, h2, h3, h4⟩ := hm
  refine ⟨?_, ?_, ?_⟩
  · simp [dispatchAlgo, h1, h2, h3, h4]
  · simp [dispatchAlgo, h1, h2, h3, h4]
  · intro index total
    simp [getColor, colorSchemes, h1, h2, h3, h4]

/-- Witness for C6 at the invalid mode string `spiral`. -/
theorem invalid_mode_falls_back_to_bars_witness :
    dispatchAlgo "spiral" = VisAlgo.bars ∧
    getColor "spiral" 3 128 = getColor "bars" 3 128 :=
  ⟨(invalid_mode_falls_back_to_bars "spiral" (by decide)).1,
   (invalid_mode_falls_back_to_bars "spiral" (by decide)).2.2 3 128⟩

end MelodyViz
